import Mathlib

/-!
Verification of the servicestack-go client library: a shallow embedding of the
two HTTP clients (the generic `Client` of client.go and the convention-based
`JsonServiceClient`) together with proofs of the specified properties.
-/

namespace ServiceStackGo

/-! ### String utilities

Core `String` functions such as `splitOn` are implemented over byte positions
and do not reduce inside the kernel, so the Go string operations the library
uses are embedded here directly over `List Char`. -/

/-- Byte-wise (equivalently, code-point-wise: UTF-8 preserves code-point
order) lexicographic comparison, as Go compares strings. -/
def lexLe : List Char → List Char → Bool
  | [], _ => true
  | _ :: _, [] => false
  | a :: as, b :: bs =>
    if a.toNat < b.toNat then true
    else if b.toNat < a.toNat then false
    else lexLe as bs

/-- Go's `<=` on strings, the order `sort.Strings` sorts by. -/
def strLe (a b : String) : Prop := lexLe a.data b.data = true

instance : DecidableRel strLe := fun a b => by unfold strLe; infer_instance

theorem char_toNat_inj {a b : Char} (h : a.toNat = b.toNat) : a = b :=
  Char.eq_of_val_eq (UInt32.ext h)

theorem lexLe_total : ∀ xs ys : List Char, lexLe xs ys = true ∨ lexLe ys xs = true
  | [], _ => Or.inl rfl
  | _ :: _, [] => Or.inr rfl
  | a :: as, b :: bs => by
    simp only [lexLe]
    rcases Nat.lt_trichotomy a.toNat b.toNat with h | h | h
    · simp [h]
    · simp only [h, Nat.lt_irrefl, if_false]
      exact lexLe_total as bs
    · simp [h, Nat.lt_asymm h]

theorem lexLe_trans : ∀ xs ys zs : List Char,
    lexLe xs ys = true → lexLe ys zs = true → lexLe xs zs = true
  | [], _, _, _, _ => rfl
  | _ :: _, [], _, h, _ => by simp [lexLe] at h
  | _ :: _, _ :: _, [], _, h => by simp [lexLe] at h
  | a :: as, b :: bs, c :: cs, h₁, h₂ => by
    simp only [lexLe] at h₁ h₂ ⊢
    rcases Nat.lt_trichotomy a.toNat b.toNat with hab | hab | hab
    · rcases Nat.lt_trichotomy b.toNat c.toNat with hbc | hbc | hbc
      · simp [Nat.lt_trans hab hbc]
      · simp [hbc ▸ hab]
      · simp [hab, Nat.lt_asymm hab, hbc, Nat.lt_asymm hbc] at h₂
    · rcases Nat.lt_trichotomy b.toNat c.toNat with hbc | hbc | hbc
      · simp [hab ▸ hbc]
      · have hac : a.toNat = c.toNat := hab.trans hbc
        simp only [hac, Nat.lt_irrefl, if_false]
        exact lexLe_trans as bs cs
          (by simpa [hab, Nat.lt_irrefl] using h₁)
          (by simpa [hbc, Nat.lt_irrefl] using h₂)
      · simp [hbc, Nat.lt_asymm hbc] at h₂
    · simp [hab, Nat.lt_asymm hab] at h₁

theorem lexLe_antisymm : ∀ xs ys : List Char,
    lexLe xs ys = true → lexLe ys xs = true → xs = ys
  | [], [], _, _ => rfl
  | [], _ :: _, _, h => by simp [lexLe] at h
  | _ :: _, [], h, _ => by simp [lexLe] at h
  | a :: as, b :: bs, h₁, h₂ => by
    simp only [lexLe] at h₁ h₂
    rcases Nat.lt_trichotomy a.toNat b.toNat with hab | hab | hab
    · simp [hab, Nat.lt_asymm hab] at h₂
    · have := lexLe_antisymm as bs (by simpa [hab, Nat.lt_irrefl] using h₁)
        (by simpa [hab, Nat.lt_irrefl] using h₂)
      rw [char_toNat_inj hab, this]
    · simp [hab, Nat.lt_asymm hab] at h₁

instance : IsTotal String strLe := ⟨fun a b => lexLe_total a.data b.data⟩

instance : IsTrans String strLe := ⟨fun a b c => lexLe_trans a.data b.data c.data⟩

instance : IsAntisymm String strLe :=
  ⟨fun a b h₁ h₂ => by
    cases a; cases b
    exact congrArg String.mk (lexLe_antisymm _ _ h₁ h₂)⟩

/-- ASCII lower-casing of one character. -/
def asciiLowerChar (c : Char) : Char :=
  if 65 ≤ c.toNat ∧ c.toNat ≤ 90 then Char.ofNat (c.toNat + 32) else c

/-- ASCII lower-casing of a string (the names folded in this development are
all ASCII, so this coincides with Go's case folding on them). -/
def asciiLower (s : String) : String := String.mk (s.data.map asciiLowerChar)

/-- Auxiliary loop for `splitOnDot`. -/
def splitOnDotAux : List Char → List Char → List String
  | acc, [] => [String.mk acc.reverse]
  | acc, c :: rest =>
    if c = '.' then String.mk acc.reverse :: splitOnDotAux [] rest
    else splitOnDotAux (c :: acc) rest

/-- Go's `strings.Split(s, ".")`. -/
def splitOnDot (s : String) : List String := splitOnDotAux [] s.data

/-- Go's `strings.TrimPrefix(s, "*")`: the leading star removed when present. -/
def trimStar (s : String) : String :=
  match s.data with
  | c :: rest => if c = '*' then String.mk rest else s
  | [] => s

/-- Whether a string ends with the character `c`. -/
def endsWithChar (s : String) (c : Char) : Bool :=
  match s.data.getLast? with
  | some d => d = c
  | none => false

/-- Whether a string starts with the character `c`. -/
def startsWithChar (s : String) (c : Char) : Bool :=
  match s.data with
  | d :: _ => d = c
  | [] => false

/-! ### Go maps as association lists

A Go `map[string]V` is modelled as an association list with unique keys;
`mapSet` is the map assignment `m[k] = v`, which overwrites the entry. -/

/-- Assignment `m[k] = v` in a Go map: overwrite the entry for `k`, or append
a new one. -/
def mapSet {α : Type} : List (String × α) → String → α → List (String × α)
  | [], k, v => [(k, v)]
  | (k₁, v₁) :: rest, k, v =>
    if k₁ = k then (k, v) :: rest else (k₁, v₁) :: mapSet rest k v

/-- A JSON value, as produced by encoding/json.  Numbers are modelled as
integers: no claim involves a fractional JSON number, and the library itself
never constructs one. -/
inductive Json where
  | null
  | bool (b : Bool)
  | num (n : Int)
  | str (s : String)
  | arr (elems : List Json)
  | obj (fields : List (String × Json))

/-- Whether a JSON value is the null literal (the nil interface after
json.Unmarshal into interface-typed storage). -/
def Json.isNull : Json → Bool
  | .null => true
  | _ => false

/-- Escaping of one character inside a JSON string literal, following
encoding/json's encoder (HTML escaping on, its default for json.Marshal). -/
def jsonEscapeChar (c : Char) : String :=
  if c = '"' then "\\\""
  else if c = '\\' then "\\\\"
  else if c = Char.ofNat 10 then "\\n"
  else if c = Char.ofNat 13 then "\\r"
  else if c = Char.ofNat 9 then "\\t"
  else if c = '<' then "\\u003c"
  else if c = '>' then "\\u003e"
  else if c = '&' then "\\u0026"
  else if c.toNat < 32 then
    "\\u00" ++ String.mk ["0123456789abcdef".data.getD (c.toNat / 16) '0',
                          "0123456789abcdef".data.getD (c.toNat % 16) '0']
  else String.mk [c]

/-- Rendering of a JSON string literal, quotes included. -/
def jsonEscape (s : String) : String :=
  "\"" ++ String.join (s.data.map jsonEscapeChar) ++ "\""

mutual

/-- Compact rendering of a JSON value, as json.Marshal produces it. -/
def Json.render : Json → String
  | .null => "null"
  | .bool b => cond b "true" "false"
  | .num n => toString n
  | .str s => jsonEscape s
  | .arr xs => "[" ++ Json.renderElems xs ++ "]"
  | .obj fs => "\x7b" ++ Json.renderFields fs ++ "\x7d"

/-- Comma-separated rendering of JSON array elements. -/
def Json.renderElems : List Json → String
  | [] => ""
  | [x] => Json.render x
  | x :: xs => Json.render x ++ "," ++ Json.renderElems xs

/-- Comma-separated rendering of JSON object members. -/
def Json.renderFields : List (String × Json) → String
  | [] => ""
  | [(k, v)] => jsonEscape k ++ ":" ++ Json.render v
  | (k, v) :: xs => jsonEscape k ++ ":" ++ Json.render v ++ "," ++ Json.renderFields xs

end

mutual

/-- Go's `fmt.Sprintf("%v", x)` of the interface value decoded from a JSON
value: strings and booleans print bare, a JSON null is the nil interface
(`<nil>`), integral numbers print as `%g` does for whole floats.  Composite
values reach this function only through `toQueryString`, whose stringification
of them the specification declares implementation-defined; they are rendered
element-wise here (fmt prints maps with sorted keys, a detail no claim
touches, so the stored field order is used). -/
def goStringOf : Json → String
  | .null => "<nil>"
  | .bool b => cond b "true" "false"
  | .num n => toString n
  | .str s => s
  | .arr xs => "[" ++ goStringElems xs ++ "]"
  | .obj fs => "map[" ++ goStringFields fs ++ "]"

/-- Space-separated `%v` rendering of slice elements. -/
def goStringElems : List Json → String
  | [] => ""
  | [x] => goStringOf x
  | x :: xs => goStringOf x ++ " " ++ goStringElems xs

/-- Space-separated `key:value` rendering of map entries. -/
def goStringFields : List (String × Json) → String
  | [] => ""
  | [(k, v)] => k ++ ":" ++ goStringOf v
  | (k, v) :: xs => k ++ ":" ++ goStringOf v ++ " " ++ goStringFields xs

end

/-! ### Encoding helpers: UTF-8, base64, URL query escaping -/

/-- The UTF-8 bytes of one character. -/
def utf8Bytes (c : Char) : List Nat :=
  let n := c.toNat
  if n < 0x80 then [n]
  else if n < 0x800 then [0xC0 + n / 0x40, 0x80 + n % 0x40]
  else if n < 0x10000 then
    [0xE0 + n / 0x1000, 0x80 + (n / 0x40) % 0x40, 0x80 + n % 0x40]
  else
    [0xF0 + n / 0x40000, 0x80 + (n / 0x1000) % 0x40, 0x80 + (n / 0x40) % 0x40,
     0x80 + n % 0x40]

/-- The UTF-8 bytes of a string (Go's `[]byte(s)`). -/
def utf8Encode (s : String) : List Nat := s.data.flatMap utf8Bytes

/-- The base64 alphabet character at index `n` (standard alphabet). -/
def base64Char (n : Nat) : Char :=
  "ABCDEFGHIJKLMNOPQRSTUVWXYZabcdefghijklmnopqrstuvwxyz0123456789+/".data.getD n 'A'

/-- Go's `base64.StdEncoding.EncodeToString`: standard alphabet, padded. -/
def base64Encode : List Nat → String
  | [] => ""
  | [a] => String.mk [base64Char (a / 4), base64Char (a % 4 * 16), '=', '=']
  | [a, b] =>
    String.mk [base64Char (a / 4), base64Char (a % 4 * 16 + b / 16),
               base64Char (b % 16 * 4), '=']
  | a :: b :: c :: rest =>
    String.mk [base64Char (a / 4), base64Char (a % 4 * 16 + b / 16),
               base64Char (b % 16 * 4 + c / 64), base64Char (c % 64)]
      ++ base64Encode rest

/-- Upper-case hexadecimal digit, as Go's URL escaper emits. -/
def hexDigitUpper (n : Nat) : Char := "0123456789ABCDEF".data.getD n '0'

/-- Escaping of one character by Go's `url.QueryEscape`: alphanumerics and
`-._~` are kept, a space becomes `+`, every other byte of the UTF-8 encoding
becomes `%XX`. -/
def queryEscapeChar (c : Char) : String :=
  if c.isAlphanum || c = '-' || c = '_' || c = '.' || c = '~' then String.mk [c]
  else if c = ' ' then "+"
  else String.join ((utf8Bytes c).map fun b =>
    String.mk ['%', hexDigitUpper (b / 16), hexDigitUpper (b % 16)])

/-- Go's `url.QueryEscape`. -/
def queryEscape (s : String) : String := String.join (s.data.map queryEscapeChar)

/-! ### url.Values

Go's `url.Values` is a `map[string][]string`; `Add` appends to the value list
of a key, `Encode` emits `k=v` pairs with the keys sorted. -/

/-- `url.Values.Add`: append `v` to the value list of `k`. -/
def valuesAdd : List (String × List String) → String → String → List (String × List String)
  | [], k, v => [(k, [v])]
  | (k₁, vs) :: rest, k, v =>
    if k₁ = k then (k₁, vs ++ [v]) :: rest else (k₁, vs) :: valuesAdd rest k v

/-- `url.Values.Encode`: keys sorted ascending, each value list in order,
both key and value query-escaped, pairs joined with `&`. -/
def encodeValues (m : List (String × List String)) : String :=
  let keys := List.insertionSort strLe (m.map Prod.fst)
  String.intercalate "&" (keys.flatMap fun k =>
    ((m.lookup k).getD []).map fun v => queryEscape k ++ "=" ++ queryEscape v)

/-! ### The convention-based request encoding -/

/-- The effect of `json.Unmarshal` of an object body into a
`map[string]interface{}`: every member is assigned in order, a later
duplicate key overwriting an earlier one. -/
def dedupLastWins (fields : List (String × Json)) : List (String × Json) :=
  fields.foldl (fun acc kv => mapSet acc kv.1 kv.2) []

/-- The `url.Values` built by `toQueryString`'s loop: every key of the map
whose value is not nil is added with its `%v` rendering.  (The Go loop visits
the map in an unspecified order; the determinism of the result is the content
of the iteration-order theorem below.) -/
def buildParams (data : List (String × Json)) : List (String × List String) :=
  data.foldl (fun acc kv => if kv.2.isNull then acc else valuesAdd acc kv.1 (goStringOf kv.2)) []

/-- `toQueryString(v)`: marshal the request to JSON, unmarshal that back into
a flat `map[string]interface{}` (so only an object — or a null, which yields
the empty map — is accepted), add every non-nil entry to a `url.Values`, and
encode it.  The marshal/unmarshal round trip of the request value is the
identity on its JSON tree. -/
def toQueryString (v : Json) : Except String String :=
  match v with
  | .obj fields => .ok (encodeValues (buildParams (dedupLastWins fields)))
  | .null => .ok (encodeValues [])
  | _ => .error "json: cannot unmarshal value into Go value of type map[string]interface \x7b\x7d"

/-! ### Request path derivation -/

/-- `getRequestPath`: the request's type name (`fmt.Sprintf("%T", request)`),
its package qualifier split off at the dots, a leading pointer star trimmed,
appended to the fixed prefix. -/
def getRequestPath (typeName : String) : String :=
  let parts := splitOnDot typeName
  let t₁ := if parts.length > 1 then parts.getLastD typeName else typeName
  let t₂ := trimStar t₁
  "/json/reply/" ++ t₂

/-- The bare type name as the specification words it: the package prefix
stripped (the part after the last dot, when a dot is present), then the
pointer marker stripped. -/
def bareTypeName (typeName : String) : String :=
  let parts := splitOnDot typeName
  trimStar (if parts.length > 1 then parts.getLastD typeName else typeName)

/-! ### JSON parsing

json.Unmarshal first runs a scanner over the whole input and reports a syntax
error before any type-directed decoding; `parseJson` models that phase.
Modelling restriction: JSON numbers are parsed as integers only — a fraction
or exponent makes the input unparseable here.  No claim involves a fractional
number. -/

/-- JSON insignificant whitespace. -/
def isJsonWs (c : Char) : Bool :=
  c = ' ' || c = Char.ofNat 9 || c = Char.ofNat 10 || c = Char.ofNat 13

/-- Drop leading JSON whitespace. -/
def skipWs : List Char → List Char
  | c :: rest => if isJsonWs c then skipWs rest else c :: rest
  | [] => []

/-- Value of a hexadecimal digit. -/
def hexVal (c : Char) : Option Nat :=
  if c.isDigit then some (c.toNat - 48)
  else if 97 ≤ c.toNat ∧ c.toNat ≤ 102 then some (c.toNat - 87)
  else if 65 ≤ c.toNat ∧ c.toNat ≤ 70 then some (c.toNat - 55)
  else none

/-- The character a single-character JSON escape stands for. -/
def simpleEscape (e : Char) : Option Char :=
  if e = '"' then some '"'
  else if e = '\\' then some '\\'
  else if e = '/' then some '/'
  else if e = 'b' then some (Char.ofNat 8)
  else if e = 'f' then some (Char.ofNat 12)
  else if e = 'n' then some (Char.ofNat 10)
  else if e = 'r' then some (Char.ofNat 13)
  else if e = 't' then some (Char.ofNat 9)
  else none

/-- Parse the body of a JSON string literal, the opening quote already
consumed; returns the characters and the rest of the input. -/
def parseStringBody : List Char → Option (List Char × List Char)
  | [] => none
  | c :: rest =>
    if c = '"' then some ([], rest)
    else if c = '\\' then
      match rest with
      | [] => none
      | e :: rest₂ =>
        if e = 'u' then
          match rest₂ with
          | h₁ :: h₂ :: h₃ :: h₄ :: rest₃ =>
            match hexVal h₁, hexVal h₂, hexVal h₃, hexVal h₄ with
            | some a, some b, some c', some d =>
              (parseStringBody rest₃).map fun p =>
                (Char.ofNat (a * 4096 + b * 256 + c' * 16 + d) :: p.1, p.2)
            | _, _, _, _ => none
          | _ => none
        else
          match simpleEscape e with
          | some ch => (parseStringBody rest₂).map fun p => (ch :: p.1, p.2)
          | none => none
    else if c.toNat < 32 then none
    else (parseStringBody rest).map fun p => (c :: p.1, p.2)

/-- Accumulate decimal digits. -/
def parseDigitsAux : Nat → List Char → Nat × List Char
  | acc, c :: rest =>
    if c.isDigit then parseDigitsAux (acc * 10 + (c.toNat - 48)) rest
    else (acc, c :: rest)
  | acc, [] => (acc, [])

/-- Parse an integral JSON number (optional minus, decimal digits, no leading
zero before another digit). -/
def parseNumber (cs : List Char) : Option (Json × List Char) :=
  match cs with
  | '-' :: c :: rest =>
    if c.isDigit then
      if c = '0' && (match rest with | d :: _ => d.isDigit | [] => false) then none
      else
        let p := parseDigitsAux 0 (c :: rest)
        some (.num (-(p.1 : Int)), p.2)
    else none
  | c :: rest =>
    if c.isDigit then
      if c = '0' && (match rest with | d :: _ => d.isDigit | [] => false) then none
      else
        let p := parseDigitsAux 0 (c :: rest)
        some (.num (p.1 : Int), p.2)
    else none
  | [] => none

mutual

/-- Parse one JSON value (leading whitespace allowed); `fuel` bounds the
recursion and is chosen large enough by `parseJson`. -/
def parseValue : Nat → List Char → Option (Json × List Char)
  | 0, _ => none
  | fuel + 1, cs =>
    match skipWs cs with
    | [] => none
    | c :: rest =>
      if c = 'n' then
        match rest with
        | 'u' :: 'l' :: 'l' :: rest₂ => some (.null, rest₂)
        | _ => none
      else if c = 't' then
        match rest with
        | 'r' :: 'u' :: 'e' :: rest₂ => some (.bool true, rest₂)
        | _ => none
      else if c = 'f' then
        match rest with
        | 'a' :: 'l' :: 's' :: 'e' :: rest₂ => some (.bool false, rest₂)
        | _ => none
      else if c = '"' then
        match parseStringBody rest with
        | some (chars, rest₂) => some (.str (String.mk chars), rest₂)
        | none => none
      else if c = Char.ofNat 123 then parseObjectBody fuel rest true []
      else if c = '[' then parseArrayBody fuel rest true []
      else parseNumber (c :: rest)

/-- Parse the members of a JSON object, the opening brace already consumed;
`acc` holds the members parsed so far in reverse. -/
def parseObjectBody : Nat → List Char → Bool → List (String × Json) → Option (Json × List Char)
  | 0, _, _, _ => none
  | fuel + 1, cs, isFirst, acc =>
    match skipWs cs with
    | [] => none
    | c :: rest =>
      if c = Char.ofNat 125 ∧ isFirst then some (.obj [], rest)
      else if c = '"' then
        match parseStringBody rest with
        | none => none
        | some (keyChars, rest₂) =>
          match skipWs rest₂ with
          | ':' :: rest₃ =>
            match parseValue fuel rest₃ with
            | none => none
            | some (v, rest₄) =>
              match skipWs rest₄ with
              | ',' :: rest₅ =>
                parseObjectBody fuel rest₅ false ((String.mk keyChars, v) :: acc)
              | d :: rest₅ =>
                if d = Char.ofNat 125 then
                  some (.obj ((String.mk keyChars, v) :: acc).reverse, rest₅)
                else none
              | [] => none
          | _ => none
      else none

/-- Parse the elements of a JSON array, the opening bracket already consumed;
`acc` holds the elements parsed so far in reverse. -/
def parseArrayBody : Nat → List Char → Bool → List Json → Option (Json × List Char)
  | 0, _, _, _ => none
  | fuel + 1, cs, isFirst, acc =>
    match skipWs cs with
    | [] => none
    | c :: rest =>
      if c = ']' ∧ isFirst then some (.arr [], rest)
      else
        match parseValue fuel (c :: rest) with
        | none => none
        | some (v, rest₂) =>
          match skipWs rest₂ with
          | ',' :: rest₃ => parseArrayBody fuel rest₃ false (v :: acc)
          | ']' :: rest₃ => some (.arr ((v :: acc).reverse), rest₃)
          | _ => none

end

/-- json.Unmarshal's scanner: the whole input must be one JSON value with
only whitespace around it. -/
def parseJson (s : String) : Option Json :=
  match parseValue (s.length + 1) s.data with
  | some (j, rest) => if (skipWs rest).isEmpty then some j else none
  | none => none

/-! ### The error envelope and its decoding -/

/-- ResponseError, one field-level validation error.  (Named
`ResponseErrorEntry` here only to avoid clashing with a response-error sum
type; it is the Go struct ResponseError.) -/
structure ResponseErrorEntry where
  errorCode : String := ""
  fieldName : String := ""
  message : String := ""
  meta : List (String × String) := []
deriving DecidableEq, Repr

/-- ResponseStatus, the ServiceStack error envelope.  Defaults are the Go
zero values (a nil map and a nil slice are modelled as empty). -/
structure ResponseStatus where
  errorCode : String := ""
  message : String := ""
  stackTrace : String := ""
  errors : List ResponseErrorEntry := []
  meta : List (String × String) := []
deriving DecidableEq, Repr

/-- WebServiceException, the typed service error. -/
structure WebServiceException where
  statusCode : Int
  statusDescription : String
  responseStatus : ResponseStatus
deriving DecidableEq, Repr

/-- Whether a JSON object key selects the struct field with the given json
tag: Go matches the tag exactly or case-insensitively, and no two tags in
this development collide under folding, so folded equality is exact. -/
def keyMatch (jsonKey fieldTag : String) : Bool :=
  asciiLower jsonKey == asciiLower fieldTag

/-- json.Unmarshal of a JSON value into a string destination: a string sets
it, a null leaves the current value, anything else is a type error. -/
def decodeStringInto (cur : String) : Json → Option String
  | .str s => some s
  | .null => some cur
  | _ => none

/-- json.Unmarshal of a JSON value into a `map[string]string`: each member's
value must be a string (a null member leaves the fresh zero string); existing
entries are kept, same keys overwritten. -/
def decodeMetaInto (cur : List (String × String)) : Json → Option (List (String × String))
  | .null => some cur
  | .obj fields => fields.foldlM (fun m kv => (decodeStringInto "" kv.2).map (mapSet m kv.1)) cur
  | _ => none

/-- Assign one JSON object member into a ResponseError; unmatched keys are
ignored, as encoding/json does. -/
def ResponseErrorEntry.applyField (re : ResponseErrorEntry) (k : String) (v : Json) :
    Option ResponseErrorEntry :=
  if keyMatch k "errorCode" then (decodeStringInto re.errorCode v).map fun s => { re with errorCode := s }
  else if keyMatch k "fieldName" then (decodeStringInto re.fieldName v).map fun s => { re with fieldName := s }
  else if keyMatch k "message" then (decodeStringInto re.message v).map fun s => { re with message := s }
  else if keyMatch k "meta" then (decodeMetaInto re.meta v).map fun m => { re with meta := m }
  else some re

/-- json.Unmarshal of a JSON value into a ResponseError. -/
def decodeResponseErrorInto (cur : ResponseErrorEntry) : Json → Option ResponseErrorEntry
  | .null => some cur
  | .obj fields => fields.foldlM (fun r kv => r.applyField kv.1 kv.2) cur
  | _ => none

/-- json.Unmarshal of a JSON value into a `[]ResponseError`: an array decodes
each element into a fresh zero element, a null keeps the current slice. -/
def decodeErrorsInto (cur : List ResponseErrorEntry) : Json → Option (List ResponseErrorEntry)
  | .null => some cur
  | .arr xs => xs.mapM (decodeResponseErrorInto {})
  | _ => none

/-- Assign one JSON object member into a ResponseStatus. -/
def ResponseStatus.applyField (rs : ResponseStatus) (k : String) (v : Json) :
    Option ResponseStatus :=
  if keyMatch k "errorCode" then (decodeStringInto rs.errorCode v).map fun s => { rs with errorCode := s }
  else if keyMatch k "message" then (decodeStringInto rs.message v).map fun s => { rs with message := s }
  else if keyMatch k "stackTrace" then (decodeStringInto rs.stackTrace v).map fun s => { rs with stackTrace := s }
  else if keyMatch k "errors" then (decodeErrorsInto rs.errors v).map fun e => { rs with errors := e }
  else if keyMatch k "meta" then (decodeMetaInto rs.meta v).map fun m => { rs with meta := m }
  else some rs

/-- json.Unmarshal of a JSON value into a ResponseStatus. -/
def decodeResponseStatusInto (cur : ResponseStatus) : Json → Option ResponseStatus
  | .null => some cur
  | .obj fields => fields.foldlM (fun r kv => r.applyField kv.1 kv.2) cur
  | _ => none

/-- json.Unmarshal of a parsed JSON body into parseError's anonymous wrapper
struct (one field, tag responseStatus): only an object or null is accepted;
members other than responseStatus are ignored. -/
def decodeErrorResponse : Json → Option ResponseStatus
  | .null => some {}
  | .obj fields =>
    fields.foldlM
      (fun rs kv => if keyMatch kv.1 "responseStatus" then decodeResponseStatusInto rs kv.2 else some rs)
      {}
  | _ => none

/-- parseError: try to decode the failure body as the wrapped envelope; when
that fails, degrade to an envelope whose only set field is the message,
holding the raw body text.  The function is total: the decode error itself is
never surfaced. -/
def parseError (statusCode : Int) (statusDescription : String) (body : String) :
    WebServiceException :=
  match (parseJson body).bind decodeErrorResponse with
  | none =>
    { statusCode := statusCode, statusDescription := statusDescription,
      responseStatus := { message := body } }
  | some rs =>
    { statusCode := statusCode, statusDescription := statusDescription,
      responseStatus := rs }

/-- The Error() method of WebServiceException. -/
def WebServiceException.Error (e : WebServiceException) : String :=
  if e.responseStatus.message ≠ "" then
    toString e.statusCode ++ " " ++ e.statusDescription ++ ": " ++ e.responseStatus.message
  else
    toString e.statusCode ++ " " ++ e.statusDescription

/-! ### HTTP headers

`http.Header.Set` canonicalizes the header name (net/textproto): each
letter is lower-cased except the first one and those following a hyphen,
provided every character is a valid token character. -/

/-- Valid MIME header token characters. -/
def isTokenChar (c : Char) : Bool :=
  c.isAlphanum ||
    ['!', '#', '$', '%', '&', Char.ofNat 39, '*', '+', '-', '.', '^', '_',
     Char.ofNat 96, '|', '~'].contains c

/-- ASCII upper-casing of one character. -/
def asciiUpperChar (c : Char) : Char :=
  if 97 ≤ c.toNat ∧ c.toNat ≤ 122 then Char.ofNat (c.toNat - 32) else c

/-- Canonicalization loop: `upper` says whether the next letter starts a
word. -/
def canonAux : Bool → List Char → List Char
  | _, [] => []
  | upper, c :: rest =>
    (if upper then asciiUpperChar c else asciiLowerChar c) :: canonAux (c = '-') rest

/-- net/textproto's CanonicalMIMEHeaderKey: canonicalize when every character
is a token character, otherwise return the name unchanged. -/
def canonicalHeaderKey (s : String) : String :=
  if s.data.all isTokenChar then String.mk (canonAux true s.data) else s

/-- `http.Header.Set`: store under the canonical key, replacing any previous
value. -/
def headerSet (h : List (String × String)) (k v : String) : List (String × String) :=
  mapSet h (canonicalHeaderKey k) v

/-- Header lookup under the canonical key (`http.Header.Get`, with absence
kept observable as `none`). -/
def headerGet (h : List (String × String)) (k : String) : Option String :=
  h.lookup (canonicalHeaderKey k)

/-! ### The HTTP exchange -/

/-- The response handed back by the transport for one exchange: Go's
`resp.StatusCode`, `resp.Status` (the full textual status line, code
included) and the fully read body. -/
structure HttpResponse where
  statusCode : Int
  status : String
  body : String
deriving DecidableEq, Repr

/-- The request handed to the transport: method, full URL, headers after
composition, and the body when one is sent. -/
structure OutgoingRequest where
  method : String
  url : String
  headers : List (String × String)
  body : Option String
deriving DecidableEq, Repr

/-- json.Unmarshal into a destination of the caller's type: the scanner
(`parseJson`) validates the whole input first — so an empty or malformed body
fails for every destination type — then the type-directed decoder `dec`
merges the parsed value into the current destination value. -/
def goUnmarshalInto {σ : Type} (dec : Json → σ → Option σ) (body : String) (cur : σ) :
    Except String σ :=
  match parseJson body with
  | none => .error "unexpected end of JSON input"
  | some j =>
    match dec j cur with
    | some v => .ok v
    | none => .error "json: cannot unmarshal"

/-- A Go request value as the convention-based client observes it: its
concrete type name (`fmt.Sprintf("%T", request)` — a pointer star and a
package qualifier included) and the JSON tree json.Marshal produces for it.
The path derivation consults only `typeName`; the encoders consult only
`json`. -/
structure GoValue where
  typeName : String
  json : Json

/-! ### The generic client (client.go) -/

/-- Client, the generic path-based client.  The `*http.Client` is modelled by
its timeout (nanoseconds). -/
structure Client where
  baseURL : String
  timeout : Nat
  headers : List (String × String)
deriving DecidableEq, Repr

/-- NewClient: 30 second timeout, empty header map. -/
def NewClient (baseURL : String) : Client :=
  { baseURL := baseURL, timeout := 30000000000, headers := [] }

/-- SetHeader: plain Go map assignment (no canonicalization at storage time;
the keys are canonicalized when copied onto a request). -/
def Client.SetHeader (c : Client) (key value : String) : Client :=
  { c with headers := mapSet c.headers key value }

/-- url.JoinPath(base, path).  No claim inspects the joined URL, so the model
keeps the essential joining with exactly one slash; the error case (an
unparsable base URL) is outside the model. -/
def joinPath (base path : String) : String :=
  (if endsWithChar base '/' then String.mk (base.data.dropLast) else base) ++
    (if startsWithChar path '/' then path else "/" ++ path)

/-- Everything observable about one `doRequest` call once the transport
returned `resp`: the error (`none` is Go's nil error), the caller's response
container afterwards, the request that was sent, and the client state
afterwards. -/
structure DoRequestOutcome (σ : Type) where
  error : Option String
  out : Option σ
  sent : OutgoingRequest
  client : Client
deriving DecidableEq

/-- doRequest: build the URL, marshal the body when a request value is given,
set Content-Type only then, always set Accept, copy the configured headers
over the defaults, execute, fail on any status outside 200–299 with a plain
status+body error, and otherwise decode a non-empty body into the caller's
container when one was supplied.  (The transport-failure and marshal-failure
early exits perform no exchange and are outside this model; a failed decode's
partial writes to the container are not modelled — no claim observes the
container when an error is returned.  The configured headers are copied in
Go's unspecified map order, modelled as the stored list order.) -/
def Client.doRequest {σ : Type} (c : Client) (method path : String) (request : Option Json)
    (out : Option σ) (dec : Json → σ → Option σ) (resp : HttpResponse) :
    DoRequestOutcome σ :=
  let fullURL := joinPath c.baseURL path
  let body := request.map Json.render
  let hdrs₀ :=
    match request with
    | some _ => headerSet (headerSet [] "Content-Type" "application/json") "Accept" "application/json"
    | none => headerSet [] "Accept" "application/json"
  let hdrs := c.headers.foldl (fun h kv => headerSet h kv.1 kv.2) hdrs₀
  let sent : OutgoingRequest := { method := method, url := fullURL, headers := hdrs, body := body }
  if resp.statusCode < 200 ∨ resp.statusCode ≥ 300 then
    { error := some ("request failed with status " ++ toString resp.statusCode ++ ": " ++ resp.body),
      out := out, sent := sent, client := c }
  else
    match out with
    | some v =>
      if resp.body.length > 0 then
        match goUnmarshalInto dec resp.body v with
        | .error e => { error := some ("failed to unmarshal response: " ++ e),
                        out := some v, sent := sent, client := c }
        | .ok v₂ => { error := none, out := some v₂, sent := sent, client := c }
      else { error := none, out := out, sent := sent, client := c }
    | none => { error := none, out := out, sent := sent, client := c }

/-- Get: doRequest with method GET and no body. -/
def Client.Get {σ : Type} (c : Client) (path : String) (out : Option σ)
    (dec : Json → σ → Option σ) (resp : HttpResponse) : DoRequestOutcome σ :=
  c.doRequest "GET" path none out dec resp

/-- Post: doRequest with method POST. -/
def Client.Post {σ : Type} (c : Client) (path : String) (request : Json) (out : Option σ)
    (dec : Json → σ → Option σ) (resp : HttpResponse) : DoRequestOutcome σ :=
  c.doRequest "POST" path (some request) out dec resp

/-- Put: doRequest with method PUT. -/
def Client.Put {σ : Type} (c : Client) (path : String) (request : Json) (out : Option σ)
    (dec : Json → σ → Option σ) (resp : HttpResponse) : DoRequestOutcome σ :=
  c.doRequest "PUT" path (some request) out dec resp

/-- Delete: doRequest with method DELETE and no body. -/
def Client.Delete {σ : Type} (c : Client) (path : String) (out : Option σ)
    (dec : Json → σ → Option σ) (resp : HttpResponse) : DoRequestOutcome σ :=
  c.doRequest "DELETE" path none out dec resp

/-- Patch: doRequest with method PATCH. -/
def Client.Patch {σ : Type} (c : Client) (path : String) (request : Json) (out : Option σ)
    (dec : Json → σ → Option σ) (resp : HttpResponse) : DoRequestOutcome σ :=
  c.doRequest "PATCH" path (some request) out dec resp

/-! ### The convention-based client -/

/-- JsonServiceClient.  The private `httpClient` is modelled by its timeout
(nanoseconds). -/
structure JsonServiceClient where
  baseURL : String
  timeout : Nat
  headers : List (String × String)
deriving DecidableEq, Repr

/-- NewJsonServiceClient: 30 second timeout, empty header map. -/
def NewJsonServiceClient (baseURL : String) : JsonServiceClient :=
  { baseURL := baseURL, timeout := 30000000000, headers := [] }

/-- SetTimeout. -/
def JsonServiceClient.SetTimeout (c : JsonServiceClient) (timeout : Nat) : JsonServiceClient :=
  { c with timeout := timeout }

/-- basicAuth: base64 of `username:password`. -/
def basicAuth (username password : String) : String :=
  base64Encode (utf8Encode (username ++ ":" ++ password))

/-- SetBearerToken: overwrite the Authorization entry of the header map. -/
def JsonServiceClient.SetBearerToken (c : JsonServiceClient) (token : String) :
    JsonServiceClient :=
  { c with headers := mapSet c.headers "Authorization" ("Bearer " ++ token) }

/-- SetCredentials: overwrite the Authorization entry of the header map. -/
def JsonServiceClient.SetCredentials (c : JsonServiceClient) (username password : String) :
    JsonServiceClient :=
  { c with headers := mapSet c.headers "Authorization" ("Basic " ++ basicAuth username password) }

/-- The headers Send puts on every request: Content-Type and Accept are
always set, then the configured headers are copied over them (in Go's
unspecified map order, modelled as the stored list order). -/
def JsonServiceClient.sendHeaders (c : JsonServiceClient) : List (String × String) :=
  c.headers.foldl (fun h kv => headerSet h kv.1 kv.2)
    (headerSet (headerSet [] "Content-Type" "application/json") "Accept" "application/json")

/-- The error of a Send call: either the typed WebServiceException or a plain
wrapped error (query-encoding or response-decoding failure). -/
inductive SendError where
  | webEx (e : WebServiceException)
  | other (msg : String)
deriving DecidableEq, Repr

instance {ε α : Type} [DecidableEq ε] [DecidableEq α] : DecidableEq (Except ε α) := fun a b =>
  match a, b with
  | .ok x, .ok y =>
    match decEq x y with
    | isTrue h => isTrue (by rw [h])
    | isFalse h => isFalse fun hh => h (by injection hh)
  | .ok _, .error _ => isFalse fun h => Except.noConfusion h
  | .error _, .ok _ => isFalse fun h => Except.noConfusion h
  | .error x, .error y =>
    match decEq x y with
    | isTrue h => isTrue (by rw [h])
    | isFalse h => isFalse fun hh => h (by injection hh)

/-- Everything observable about one Send call: the returned
(interface value, error) pair, the request that was sent (`none` when the
call failed before creating it), and the client state afterwards. -/
structure SendOutcome (σ : Type) where
  result : Except SendError (Option σ)
  sent : Option OutgoingRequest
  client : JsonServiceClient
deriving DecidableEq

/-- Send, second half (from the status check on): on a status ≥ 400 return
the parseError exception; on a lower status decode the body into the fresh
response instance `init` when the request declares one (`init = none` models
a nil ResponseType()), returning it on success.  Split from `Send` along the
Go function's own phases purely for proof convenience. -/
def JsonServiceClient.sendFinish {σ : Type} (c : JsonServiceClient) (sent : OutgoingRequest)
    (init : Option σ) (dec : Json → σ → Option σ) (resp : HttpResponse) : SendOutcome σ :=
  if resp.statusCode ≥ 400 then
    { result := .error (.webEx (parseError resp.statusCode resp.status resp.body)),
      sent := some sent, client := c }
  else
    match init with
    | none => { result := .ok none, sent := some sent, client := c }
    | some z =>
      match goUnmarshalInto dec resp.body z with
      | .error e => { result := .error (.other ("failed to unmarshal response: " ++ e)),
                      sent := some sent, client := c }
      | .ok v => { result := .ok (some v), sent := some sent, client := c }

/-- Send: derive the path from the request's type name; for GET and DELETE
flatten the request to a query string (returning the flattening error as-is
when it fails) and send no body, for every other method marshal the request
as the JSON body and leave the URL untouched; set the headers; execute; then
classify the response in `sendFinish`.  Transport failures perform no
classified exchange and are outside the model; marshal of the request value
always succeeds in the model. -/
def JsonServiceClient.Send {σ : Type} (c : JsonServiceClient) (method : String)
    (request : GoValue) (init : Option σ) (dec : Json → σ → Option σ)
    (resp : HttpResponse) : SendOutcome σ :=
  let requestPath := getRequestPath request.typeName
  let requestURL := c.baseURL ++ requestPath
  if method = "GET" ∨ method = "DELETE" then
    match toQueryString request.json with
    | .error e => { result := .error (.other e), sent := none, client := c }
    | .ok params =>
      c.sendFinish
        { method := method,
          url := if params = "" then requestURL else requestURL ++ "?" ++ params,
          headers := c.sendHeaders, body := none } init dec resp
  else
    c.sendFinish
      { method := method, url := requestURL, headers := c.sendHeaders,
        body := some (Json.render request.json) } init dec resp

/-- Get: Send with method GET and the request's declared response instance. -/
def JsonServiceClient.Get {σ : Type} (c : JsonServiceClient) (request : GoValue)
    (init : Option σ) (dec : Json → σ → Option σ) (resp : HttpResponse) : SendOutcome σ :=
  c.Send "GET" request init dec resp

/-- Post: Send with method POST. -/
def JsonServiceClient.Post {σ : Type} (c : JsonServiceClient) (request : GoValue)
    (init : Option σ) (dec : Json → σ → Option σ) (resp : HttpResponse) : SendOutcome σ :=
  c.Send "POST" request init dec resp

/-- Put: Send with method PUT. -/
def JsonServiceClient.Put {σ : Type} (c : JsonServiceClient) (request : GoValue)
    (init : Option σ) (dec : Json → σ → Option σ) (resp : HttpResponse) : SendOutcome σ :=
  c.Send "PUT" request init dec resp

/-- Delete: Send with method DELETE. -/
def JsonServiceClient.Delete {σ : Type} (c : JsonServiceClient) (request : GoValue)
    (init : Option σ) (dec : Json → σ → Option σ) (resp : HttpResponse) : SendOutcome σ :=
  c.Send "DELETE" request init dec resp

/-- Patch: Send with method PATCH. -/
def JsonServiceClient.Patch {σ : Type} (c : JsonServiceClient) (request : GoValue)
    (init : Option σ) (dec : Json → σ → Option σ) (resp : HttpResponse) : SendOutcome σ :=
  c.Send "PATCH" request init dec resp

/-! ### Test DTOs

The request/response pair used by the repository's own tests: HelloRequest
(json tag `name`, type name `*servicestack.HelloRequest` on the wire) and
HelloResponse (json tag `result`). -/

/-- HelloResponse, the test response DTO. -/
structure HelloResponse where
  result : String := ""
deriving DecidableEq, Repr

/-- Assign one JSON object member into a HelloResponse. -/
def HelloResponse.applyField (r : HelloResponse) (k : String) (v : Json) : Option HelloResponse :=
  if keyMatch k "result" then (decodeStringInto r.result v).map fun s => { result := s }
  else some r

/-- json.Unmarshal of a JSON value into a HelloResponse. -/
def decodeHelloResponse : Json → HelloResponse → Option HelloResponse
  | .null, r => some r
  | .obj fields, r => fields.foldlM (fun a kv => a.applyField kv.1 kv.2) r
  | _, _ => none

/-- A HelloRequest value with the given name field, as the convention-based
client observes it. -/
def helloRequest (name : String) : GoValue :=
  { typeName := "*servicestack.HelloRequest", json := .obj [("name", .str name)] }

/-! ### Association list lemmas -/

/-- The keys of an association list. -/
def keysOf {α : Type} (l : List (String × α)) : List String := l.map Prod.fst

theorem lookup_mapSet_self {α : Type} (l : List (String × α)) (k : String) (v : α) :
    (mapSet l k v).lookup k = some v := by
  induction l with
  | nil => simp [mapSet, List.lookup]
  | cons kv rest ih =>
    obtain ⟨k₁, v₁⟩ := kv
    by_cases h : k₁ = k
    · simp [mapSet, h, List.lookup]
    · have hne : (k == k₁) = false := beq_eq_false_iff_ne.mpr fun hh => h hh.symm
      simp [mapSet, h, List.lookup, hne, ih]

theorem lookup_mapSet_ne {α : Type} (l : List (String × α)) {k₁ k : String} (v : α)
    (h : k₁ ≠ k) : (mapSet l k₁ v).lookup k = l.lookup k := by
  have hne : (k == k₁) = false := beq_eq_false_iff_ne.mpr fun hh => h hh.symm
  induction l with
  | nil => simp [mapSet, List.lookup, hne]
  | cons kv rest ih =>
    obtain ⟨k₂, v₂⟩ := kv
    by_cases h₂ : k₂ = k₁
    · simp [mapSet, h₂, List.lookup, hne]
    · simp only [mapSet, h₂, if_false, List.lookup]
      by_cases h₃ : k₂ = k
      · simp [h₃, List.lookup]
      · have hne₃ : (k == k₂) = false := beq_eq_false_iff_ne.mpr fun hh => h₃ hh.symm
        simp [hne₃, ih]

theorem mapSet_of_not_mem_keys {α : Type} {l : List (String × α)} {k : String} (v : α)
    (h : k ∉ keysOf l) : mapSet l k v = l ++ [(k, v)] := by
  induction l with
  | nil => rfl
  | cons kv rest ih =>
    obtain ⟨k₁, v₁⟩ := kv
    simp only [keysOf, List.map_cons, List.mem_cons, not_or] at h
    simp only [mapSet, Ne.symm h.1, if_false, List.cons_append]
    rw [ih h.2]

theorem keysOf_mapSet_of_mem {α : Type} {l : List (String × α)} {k : String} (v : α)
    (h : k ∈ keysOf l) : keysOf (mapSet l k v) = keysOf l := by
  induction l with
  | nil => simp [keysOf] at h
  | cons kv rest ih =>
    obtain ⟨k₁, v₁⟩ := kv
    by_cases h₁ : k₁ = k
    · simp [mapSet, h₁, keysOf]
    · simp only [keysOf, List.map_cons, List.mem_cons] at h
      rcases h with h | h
      · exact absurd h.symm h₁
      · simp only [mapSet, h₁, if_false, keysOf, List.map_cons, List.cons.injEq, true_and]
        exact ih h

theorem keysOf_append {α : Type} (l₁ l₂ : List (String × α)) :
    keysOf (l₁ ++ l₂) = keysOf l₁ ++ keysOf l₂ := by
  simp [keysOf]

theorem keysOf_mapSet_nodup {α : Type} {l : List (String × α)} (k : String) (v : α)
    (h : (keysOf l).Nodup) : (keysOf (mapSet l k v)).Nodup := by
  by_cases hm : k ∈ keysOf l
  · rw [keysOf_mapSet_of_mem v hm]; exact h
  · rw [mapSet_of_not_mem_keys v hm, keysOf_append]
    simp only [keysOf, List.map_cons, List.map_nil]
    exact List.Nodup.append h (List.nodup_singleton k) (by
      intro a ha hb
      simp only [List.mem_singleton] at hb
      exact hm (hb ▸ ha))

theorem filter_key_eq_nil {α : Type} {l : List (String × α)} {k : String}
    (h : k ∉ keysOf l) : l.filter (fun kv => kv.1 == k) = [] := by
  refine List.filter_eq_nil_iff.mpr fun kv hkv => ?_
  simp only [beq_iff_eq, Bool.not_eq_true]
  intro he
  exact absurd (he ▸ List.mem_map_of_mem Prod.fst hkv) h

theorem filter_mapSet_length {α : Type} {l : List (String × α)} (k : String) (v : α)
    (h : (keysOf l).Nodup) : ((mapSet l k v).filter fun kv => kv.1 == k).length = 1 := by
  induction l with
  | nil => simp [mapSet]
  | cons kv rest ih =>
    obtain ⟨k₁, v₁⟩ := kv
    simp only [keysOf, List.map_cons, List.nodup_cons] at h
    by_cases h₁ : k₁ = k
    · subst h₁
      simp only [mapSet, if_pos rfl, List.filter_cons, beq_self_eq_true, if_true]
      rw [filter_key_eq_nil (k := k₁) h.1]
      rfl
    · have hne : (k₁ == k) = false := beq_eq_false_iff_ne.mpr h₁
      simp only [mapSet, h₁, if_false, List.filter_cons, hne]
      exact ih h.2

/-! ### sendFinish facts -/

theorem sendFinish_sent {σ : Type} (c : JsonServiceClient) (sent : OutgoingRequest)
    (init : Option σ) (dec : Json → σ → Option σ) (resp : HttpResponse) :
    (c.sendFinish sent init dec resp).sent = some sent := by
  unfold JsonServiceClient.sendFinish
  split
  · rfl
  · cases init with
    | none => rfl
    | some z => cases hg : goUnmarshalInto dec resp.body z <;> simp [hg]

theorem sendFinish_client {σ : Type} (c : JsonServiceClient) (sent : OutgoingRequest)
    (init : Option σ) (dec : Json → σ → Option σ) (resp : HttpResponse) :
    (c.sendFinish sent init dec resp).client = c := by
  unfold JsonServiceClient.sendFinish
  split
  · rfl
  · cases init with
    | none => rfl
    | some z => cases hg : goUnmarshalInto dec resp.body z <;> simp [hg]

theorem sendFinish_result_ge400 {σ : Type} (c : JsonServiceClient) (sent : OutgoingRequest)
    (init : Option σ) (dec : Json → σ → Option σ) (resp : HttpResponse)
    (h : resp.statusCode ≥ 400) :
    (c.sendFinish sent init dec resp).result =
      .error (.webEx (parseError resp.statusCode resp.status resp.body)) := by
  unfold JsonServiceClient.sendFinish
  rw [if_pos h]

/-! ## The claims -/

/-- C2: for every request value whose bare (package-prefix-stripped,
pointer-marker-stripped) type name is Foo, the convention-based client's
derived path is exactly /json/reply/Foo; the derivation consults only the
value's type name, never its field values, so any two values of the same
concrete type yield the same path, and the URL Send targets extends
base ++ /json/reply/Foo for every HTTP method.  Concretely,
*servicestack.HelloRequest maps to /json/reply/HelloRequest. -/
theorem C2_request_path :
    (∀ tn foo : String, bareTypeName tn = foo → getRequestPath tn = "/json/reply/" ++ foo)
    ∧ (∀ v w : GoValue, v.typeName = w.typeName →
        getRequestPath v.typeName = getRequestPath w.typeName)
    ∧ (∀ {σ : Type} (c : JsonServiceClient) (method : String) (request : GoValue)
        (init : Option σ) (dec : Json → σ → Option σ) (resp : HttpResponse)
        (s : OutgoingRequest), (c.Send method request init dec resp).sent = some s →
        ∃ tail, s.url = c.baseURL ++ ("/json/reply/" ++ bareTypeName request.typeName) ++ tail)
    ∧ getRequestPath "*servicestack.HelloRequest" = "/json/reply/HelloRequest" := by
  have hpath : ∀ tn, getRequestPath tn = "/json/reply/" ++ bareTypeName tn := fun tn => rfl
  refine ⟨fun tn foo h => h ▸ hpath tn, fun v w h => by rw [h], ?_, by decide⟩
  intro σ c method request init dec resp s hs
  unfold JsonServiceClient.Send at hs
  by_cases hm : method = "GET" ∨ method = "DELETE"
  · rw [if_pos hm] at hs
    cases hq : toQueryString request.json with
    | error e => rw [hq] at hs; exact absurd hs (by simp)
    | ok params =>
      rw [hq, sendFinish_sent] at hs
      cases hs
      by_cases hp : params = ""
      · exact ⟨"", by simp [hp, hpath, String.append_assoc]⟩
      · exact ⟨"?" ++ params, by simp [hp, hpath, String.append_assoc]⟩
  · rw [if_neg hm, sendFinish_sent] at hs
    cases hs
    exact ⟨"", by simp [hpath, String.append_assoc]⟩

/-- C2 witness: the path derivation at the repository's own test input. -/
theorem C2_request_path_witness :
    bareTypeName "*servicestack.HelloRequest" = "HelloRequest"
    ∧ getRequestPath "*servicestack.HelloRequest" = "/json/reply/" ++ "HelloRequest" :=
  ⟨by decide, C2_request_path.1 "*servicestack.HelloRequest" "HelloRequest" (by decide)⟩

/-- C7: a WebServiceException renders as `<code> <statusText>: <message>`
when the envelope message is non-empty and as `<code> <statusText>` when it
is empty. -/
theorem C7_exception_rendering (e : WebServiceException) :
    (e.responseStatus.message ≠ "" →
      e.Error = toString e.statusCode ++ " " ++ e.statusDescription ++ ": "
        ++ e.responseStatus.message)
    ∧ (e.responseStatus.message = "" →
      e.Error = toString e.statusCode ++ " " ++ e.statusDescription) := by
  constructor
  · intro h; unfold WebServiceException.Error; rw [if_pos h]
  · intro h; unfold WebServiceException.Error; rw [if_neg (by simp [h])]

/-- C7 witness: the two renderings at the repository's own test exceptions. -/
theorem C7_exception_rendering_witness :
    WebServiceException.Error
        { statusCode := 400, statusDescription := "Bad Request",
          responseStatus := { errorCode := "ValidationError", message := "Validation failed" } }
      = "400 Bad Request: Validation failed"
    ∧ WebServiceException.Error
        { statusCode := 500, statusDescription := "Internal Server Error",
          responseStatus := {} }
      = "500 Internal Server Error" :=
  ⟨((C7_exception_rendering _).1 (by decide)).trans (by decide),
   ((C7_exception_rendering _).2 (by decide)).trans (by decide)⟩

/-! ### Credential helpers -/

/-- One credential-setting call. -/
inductive AuthOp where
  | bearer (token : String)
  | creds (username password : String)

/-- The Authorization value a credential-setting call writes. -/
def AuthOp.value : AuthOp → String
  | .bearer t => "Bearer " ++ t
  | .creds u p => "Basic " ++ basicAuth u p

/-- Apply one credential-setting call to the client. -/
def applyAuthOp (c : JsonServiceClient) : AuthOp → JsonServiceClient
  | .bearer t => c.SetBearerToken t
  | .creds u p => c.SetCredentials u p

/-- Apply a sequence of credential-setting calls in order. -/
def applyAuthOps (c : JsonServiceClient) (ops : List AuthOp) : JsonServiceClient :=
  ops.foldl applyAuthOp c

theorem applyAuthOp_headers (c : JsonServiceClient) (op : AuthOp) :
    (applyAuthOp c op).headers = mapSet c.headers "Authorization" op.value := by
  cases op <;> rfl

theorem applyAuthOps_nodup (c : JsonServiceClient) (ops : List AuthOp)
    (h : (keysOf c.headers).Nodup) : (keysOf (applyAuthOps c ops).headers).Nodup := by
  induction ops generalizing c with
  | nil => exact h
  | cons op rest ih =>
    have : (keysOf (applyAuthOp c op).headers).Nodup := by
      rw [applyAuthOp_headers]
      exact keysOf_mapSet_nodup _ _ h
    exact ih _ this

/-- C8: SetBearerToken "abc" stores Authorization ↦ Bearer abc,
SetCredentials ("user","pass") stores Authorization ↦ Basic dXNlcjpwYXNz,
and each call overwrites the previous entry: after any sequence of such
calls exactly one Authorization entry remains, holding the last value set. -/
theorem C8_authorization_headers :
    (∀ c : JsonServiceClient,
      (c.SetBearerToken "abc").headers.lookup "Authorization" = some "Bearer abc")
    ∧ (∀ c : JsonServiceClient,
      (c.SetCredentials "user" "pass").headers.lookup "Authorization" = some "Basic dXNlcjpwYXNz")
    ∧ (∀ (c : JsonServiceClient) (ops : List AuthOp) (op : AuthOp),
        (keysOf c.headers).Nodup →
        (applyAuthOps c (ops ++ [op])).headers.lookup "Authorization" = some op.value
        ∧ ((applyAuthOps c (ops ++ [op])).headers.filter fun kv =>
            kv.1 == "Authorization").length = 1) := by
  refine ⟨?_, ?_, ?_⟩
  · intro c
    show (mapSet c.headers "Authorization" ("Bearer " ++ "abc")).lookup "Authorization" = _
    rw [lookup_mapSet_self]
    decide
  · intro c
    show (mapSet c.headers "Authorization" ("Basic " ++ basicAuth "user" "pass")).lookup
        "Authorization" = _
    rw [lookup_mapSet_self]
    decide
  · intro c ops op h
    have hsplit : applyAuthOps c (ops ++ [op]) = applyAuthOp (applyAuthOps c ops) op := by
      simp [applyAuthOps, List.foldl_append]
    rw [hsplit, applyAuthOp_headers]
    exact ⟨lookup_mapSet_self _ _ _,
      filter_mapSet_length _ _ (applyAuthOps_nodup c ops h)⟩

/-- C8 witness: the credential helpers applied to a fresh client, including
an overwriting sequence ending in SetCredentials. -/
theorem C8_authorization_headers_witness :
    ((NewJsonServiceClient "https://test.servicestack.net").SetBearerToken "abc").headers.lookup
        "Authorization" = some "Bearer abc"
    ∧ (applyAuthOps (NewJsonServiceClient "https://test.servicestack.net")
          ([AuthOp.bearer "abc"] ++ [AuthOp.creds "user" "pass"])).headers.lookup "Authorization"
        = some (AuthOp.creds "user" "pass").value :=
  ⟨C8_authorization_headers.1 _,
   (C8_authorization_headers.2.2 (NewJsonServiceClient "https://test.servicestack.net")
      [AuthOp.bearer "abc"] (AuthOp.creds "user" "pass") (by decide)).1⟩

theorem sendFinish_result_lt400 {σ : Type} (c : JsonServiceClient) (sent : OutgoingRequest)
    (init : Option σ) (dec : Json → σ → Option σ) (resp : HttpResponse)
    (h : resp.statusCode < 400) (e : WebServiceException) :
    (c.sendFinish sent init dec resp).result ≠ .error (.webEx e) := by
  unfold JsonServiceClient.sendFinish
  rw [if_neg (by omega)]
  cases init with
  | none => simp
  | some z => cases hg : goUnmarshalInto dec resp.body z <;> simp [hg]

theorem sendFinish_result_empty_body {σ : Type} (c : JsonServiceClient)
    (sent : OutgoingRequest) (z : σ) (dec : Json → σ → Option σ) (resp : HttpResponse)
    (h : resp.statusCode < 400) (hb : resp.body = "") :
    (c.sendFinish sent (some z) dec resp).result
      = .error (.other ("failed to unmarshal response: " ++ "unexpected end of JSON input")) := by
  unfold JsonServiceClient.sendFinish
  rw [if_neg (by omega), hb]
  rfl

/-- On any failure status the convention-based client returns the parseError
exception, provided the call got as far as performing an exchange. -/
theorem send_result_of_ge400 {σ : Type} (c : JsonServiceClient) (method : String)
    (request : GoValue) (init : Option σ) (dec : Json → σ → Option σ) (resp : HttpResponse)
    (h : resp.statusCode ≥ 400) (hs : (c.Send method request init dec resp).sent ≠ none) :
    (c.Send method request init dec resp).result
      = .error (.webEx (parseError resp.statusCode resp.status resp.body)) := by
  unfold JsonServiceClient.Send at hs ⊢
  by_cases hm : method = "GET" ∨ method = "DELETE"
  · rw [if_pos hm] at hs ⊢
    cases hq : toQueryString request.json with
    | error e => rw [hq] at hs; exact absurd rfl hs
    | ok params => exact sendFinish_result_ge400 _ _ _ _ _ h
  · rw [if_neg hm]
    exact sendFinish_result_ge400 _ _ _ _ _ h

/-- C9: no request-sending operation mutates the client configuration — both
the generic client's doRequest (hence its Get/Post/Put/Patch/Delete) and the
convention-based client's Send (hence its wrappers) leave the base URL, the
header mapping and the timeout exactly as they were, whatever the outcome. -/
theorem C9_requests_do_not_mutate_config :
    (∀ {σ : Type} (c : Client) (method path : String) (request : Option Json)
        (out : Option σ) (dec : Json → σ → Option σ) (resp : HttpResponse),
        (c.doRequest method path request out dec resp).client = c)
    ∧ (∀ {σ : Type} (c : JsonServiceClient) (method : String) (request : GoValue)
        (init : Option σ) (dec : Json → σ → Option σ) (resp : HttpResponse),
        (c.Send method request init dec resp).client = c) := by
  constructor
  · intro σ c method path request out dec resp
    unfold Client.doRequest
    by_cases h : resp.statusCode < 200 ∨ resp.statusCode ≥ 300
    · rw [if_pos h]
    · rw [if_neg h]
      split
      · by_cases hb : resp.body.length > 0
        · rw [if_pos hb]
          split <;> rfl
        · rw [if_neg hb]
      · rfl
  · intro σ c method request init dec resp
    unfold JsonServiceClient.Send
    by_cases hm : method = "GET" ∨ method = "DELETE"
    · rw [if_pos hm]
      cases hq : toQueryString request.json with
      | error e => rfl
      | ok params => exact sendFinish_client _ _ _ _ _
    · rw [if_neg hm]
      exact sendFinish_client _ _ _ _ _

/-- C1 counterexample: the claim says any status outside 200–299 yields an
error from either client, never a populated response — but Send only treats
statuses ≥ 400 as failures, so a 302 response with a decodable body yields a
populated HelloResponse and no error. -/
theorem C1_counterexample_302_success :
    ((NewJsonServiceClient "http://test").Send "POST" (helloRequest "World")
        (some {}) decodeHelloResponse
        { statusCode := 302, status := "302 Found",
          body := "\x7b\"result\":\"Hello\"\x7d" }).result
      = .ok (some { result := "Hello" })
    ∧ ((302 : Int) < 200 ∨ (302 : Int) ≥ 300) :=
  ⟨by decide, by decide⟩

/-- C1 (amended): the generic client fails exactly on statuses outside
200–299, returning the plain status+body error with the caller's container
untouched; the convention-based client's Send instead raises its
WebServiceException exactly on statuses ≥ 400 — statuses 300–399 are treated
as success by Send. -/
theorem C1_status_gating :
    (∀ {σ : Type} (c : Client) (method path : String) (request : Option Json)
        (out : Option σ) (dec : Json → σ → Option σ) (resp : HttpResponse),
        (resp.statusCode < 200 ∨ resp.statusCode ≥ 300) →
        (c.doRequest method path request out dec resp).error
            = some ("request failed with status " ++ toString resp.statusCode ++ ": " ++ resp.body)
        ∧ (c.doRequest method path request out dec resp).out = out)
    ∧ (∀ {σ : Type} (c : JsonServiceClient) (method : String) (request : GoValue)
        (init : Option σ) (dec : Json → σ → Option σ) (resp : HttpResponse),
        (resp.statusCode ≥ 400 →
          (c.Send method request init dec resp).sent ≠ none →
          (c.Send method request init dec resp).result
            = .error (.webEx (parseError resp.statusCode resp.status resp.body)))
        ∧ (resp.statusCode < 400 →
          ∀ e : WebServiceException,
            (c.Send method request init dec resp).result ≠ .error (.webEx e))) := by
  constructor
  · intro σ c method path request out dec resp h
    unfold Client.doRequest
    rw [if_pos h]
    exact ⟨rfl, rfl⟩
  · intro σ c method request init dec resp
    refine ⟨send_result_of_ge400 c method request init dec resp, ?_⟩
    intro h e
    unfold JsonServiceClient.Send
    by_cases hm : method = "GET" ∨ method = "DELETE"
    · rw [if_pos hm]
      cases hq : toQueryString request.json with
      | error msg => simp
      | ok params => exact sendFinish_result_lt400 _ _ _ _ _ h e
    · rw [if_neg hm]
      exact sendFinish_result_lt400 _ _ _ _ _ h e

/-- C1 witness: the amended statement applied at a 500 response on the
generic client and at a 400 and a 302 response on the convention-based one. -/
theorem C1_status_gating_witness :
    ((NewClient "http://test").doRequest "GET" "/hello" none (some ({} : HelloResponse))
        decodeHelloResponse
        { statusCode := 500, status := "500 Internal Server Error", body := "oops" }).error
      = some ("request failed with status " ++ toString (500 : Int) ++ ": " ++ "oops")
    ∧ ((NewJsonServiceClient "http://test").Send "POST" (helloRequest "") (some {})
          decodeHelloResponse
          { statusCode := 400, status := "400 Bad Request", body := "bad" }).result
        = .error (.webEx (parseError 400 "400 Bad Request" "bad"))
    ∧ ∀ e : WebServiceException,
        ((NewJsonServiceClient "http://test").Send "POST" (helloRequest "") (some {})
            decodeHelloResponse
            { statusCode := 302, status := "302 Found", body := "x" }).result
          ≠ .error (.webEx e) :=
  ⟨(C1_status_gating.1 (NewClient "http://test") "GET" "/hello" none
      (some {}) decodeHelloResponse _ (by decide)).1,
   (C1_status_gating.2 (NewJsonServiceClient "http://test") "POST" (helloRequest "")
      (some {}) decodeHelloResponse _).1 (by decide) (by decide),
   (C1_status_gating.2 (NewJsonServiceClient "http://test") "POST" (helloRequest "")
      (some {}) decodeHelloResponse _).2 (by decide)⟩

/-- C4: on a failure status the convention-based client decodes the body as
the wrapped responseStatus envelope; whenever that decoding fails the raised
exception's envelope has only its message field set, holding the raw body
text; in every case the exception carries the status code and status text,
and the decode error itself is never the returned error. -/
theorem C4_parse_error_envelope :
    (∀ (code : Int) (statusText body : String),
      ((parseJson body).bind decodeErrorResponse = none →
        parseError code statusText body
          = { statusCode := code, statusDescription := statusText,
              responseStatus := { message := body } })
      ∧ (parseError code statusText body).statusCode = code
      ∧ (parseError code statusText body).statusDescription = statusText)
    ∧ (∀ {σ : Type} (c : JsonServiceClient) (method : String) (request : GoValue)
        (init : Option σ) (dec : Json → σ → Option σ) (resp : HttpResponse),
        resp.statusCode ≥ 400 →
        (c.Send method request init dec resp).sent ≠ none →
        (c.Send method request init dec resp).result
          = .error (.webEx (parseError resp.statusCode resp.status resp.body))) := by
  constructor
  · intro code statusText body
    refine ⟨fun h => ?_, ?_, ?_⟩
    · simp [parseError, h]
    · cases h : (parseJson body).bind decodeErrorResponse <;> simp [parseError, h]
    · cases h : (parseJson body).bind decodeErrorResponse <;> simp [parseError, h]
  · exact fun c method request init dec resp => send_result_of_ge400 c method request init dec resp

/-- C4 witness: a 500 response with the non-JSON body of the repository's
TestNonServiceStackError degrades to a message-only envelope, and Send
returns exactly that exception. -/
theorem C4_parse_error_envelope_witness :
    parseError 500 "500 Internal Server Error" "Server error"
      = { statusCode := 500, statusDescription := "500 Internal Server Error",
          responseStatus := { message := "Server error" } }
    ∧ ((NewJsonServiceClient "http://test").Send "POST" (helloRequest "Test") (some {})
          decodeHelloResponse
          { statusCode := 500, status := "500 Internal Server Error", body := "Server error" }).result
        = .error (.webEx (parseError 500 "500 Internal Server Error" "Server error")) :=
  ⟨(C4_parse_error_envelope.1 500 "500 Internal Server Error" "Server error").1 (by decide),
   C4_parse_error_envelope.2 (NewJsonServiceClient "http://test") "POST" (helloRequest "Test")
      (some {}) decodeHelloResponse _ (by decide) (by decide)⟩

/-- C6: a success status with an empty body is a valid empty response on the
generic client — doRequest returns nil error and leaves the caller's
container untouched — but not on the convention-based client: Send with a
non-nil response type and an empty body always returns a plain decode error,
never a populated response. -/
theorem C6_empty_body_handling :
    (∀ {σ : Type} (c : Client) (method path : String) (request : Option Json)
        (out : Option σ) (dec : Json → σ → Option σ) (resp : HttpResponse),
        200 ≤ resp.statusCode → resp.statusCode < 300 → resp.body = "" →
        (c.doRequest method path request out dec resp).error = none
        ∧ (c.doRequest method path request out dec resp).out = out)
    ∧ (∀ {σ : Type} (c : JsonServiceClient) (method : String) (request : GoValue)
        (z : σ) (dec : Json → σ → Option σ) (resp : HttpResponse),
        resp.statusCode < 400 → resp.body = "" →
        ∃ msg, (c.Send method request (some z) dec resp).result = .error (.other msg)) := by
  constructor
  · intro σ c method path request out dec resp h₁ h₂ hb
    have hb' : ¬resp.body.length > 0 := by rw [hb]; decide
    unfold Client.doRequest
    rw [if_neg (by omega)]
    refine ⟨?_, ?_⟩ <;>
      (split
       · rw [if_neg hb']
       · rfl)
  · intro σ c method request z dec resp h hb
    unfold JsonServiceClient.Send
    by_cases hm : method = "GET" ∨ method = "DELETE"
    · rw [if_pos hm]
      cases hq : toQueryString request.json with
      | error e => exact ⟨e, rfl⟩
      | ok params => exact ⟨_, sendFinish_result_empty_body _ _ _ _ _ h hb⟩
    · rw [if_neg hm]
      exact ⟨_, sendFinish_result_empty_body _ _ _ _ _ h hb⟩

/-- C6 witness: a 200 response with an empty body through both clients. -/
theorem C6_empty_body_handling_witness :
    (((NewClient "http://test").doRequest "GET" "/hello" none (some ({} : HelloResponse))
        decodeHelloResponse { statusCode := 200, status := "200 OK", body := "" }).error = none
      ∧ ((NewClient "http://test").doRequest "GET" "/hello" none (some ({} : HelloResponse))
          decodeHelloResponse { statusCode := 200, status := "200 OK", body := "" }).out
        = some {})
    ∧ ∃ msg, ((NewJsonServiceClient "http://test").Send "GET" (helloRequest "x") (some {})
          decodeHelloResponse { statusCode := 200, status := "200 OK", body := "" }).result
        = .error (.other msg) :=
  ⟨C6_empty_body_handling.1 (NewClient "http://test") "GET" "/hello" none
      (some {}) decodeHelloResponse _ (by decide) (by decide) rfl,
   C6_empty_body_handling.2 (NewJsonServiceClient "http://test") "GET" (helloRequest "x")
      {} decodeHelloResponse _ (by decide) rfl⟩

theorem lookup_foldl_headerSet (l : List (String × String)) (h₀ : List (String × String))
    (k : String) (hk : ∀ kv ∈ l, canonicalHeaderKey kv.1 ≠ canonicalHeaderKey k) :
    headerGet (l.foldl (fun h kv => headerSet h kv.1 kv.2) h₀) k = headerGet h₀ k := by
  induction l generalizing h₀ with
  | nil => rfl
  | cons kv rest ih =>
    simp only [List.foldl_cons]
    rw [ih _ fun x hx => hk x (List.mem_cons_of_mem kv hx)]
    exact lookup_mapSet_ne _ _ (hk kv (List.mem_cons_self kv rest))

theorem doRequest_sent {σ : Type} (c : Client) (method path : String) (request : Option Json)
    (out : Option σ) (dec : Json → σ → Option σ) (resp : HttpResponse) :
    (c.doRequest method path request out dec resp).sent =
      { method := method, url := joinPath c.baseURL path,
        headers := c.headers.foldl (fun h kv => headerSet h kv.1 kv.2)
          (match request with
           | some _ => headerSet (headerSet [] "Content-Type" "application/json")
               "Accept" "application/json"
           | none => headerSet [] "Accept" "application/json"),
        body := request.map Json.render } := by
  unfold Client.doRequest
  by_cases h : resp.statusCode < 200 ∨ resp.statusCode ≥ 300
  · rw [if_pos h]
  · rw [if_neg h]
    split
    · by_cases hb : resp.body.length > 0
      · rw [if_pos hb]
        split <;> rfl
      · rw [if_neg hb]
    · rfl

theorem doRequest_sent_headers {σ : Type} (c : Client) (method path : String)
    (request : Option Json) (out : Option σ) (dec : Json → σ → Option σ)
    (resp : HttpResponse) :
    (c.doRequest method path request out dec resp).sent.headers =
      c.headers.foldl (fun h kv => headerSet h kv.1 kv.2)
        (match request with
         | some _ => headerSet (headerSet [] "Content-Type" "application/json")
             "Accept" "application/json"
         | none => headerSet [] "Accept" "application/json") := by
  rw [doRequest_sent]

theorem send_sent_headers {σ : Type} (c : JsonServiceClient) (method : String)
    (request : GoValue) (init : Option σ) (dec : Json → σ → Option σ) (resp : HttpResponse)
    (s : OutgoingRequest) (hs : (c.Send method request init dec resp).sent = some s) :
    s.headers = c.sendHeaders := by
  unfold JsonServiceClient.Send at hs
  by_cases hm : method = "GET" ∨ method = "DELETE"
  · rw [if_pos hm] at hs
    cases hq : toQueryString request.json with
    | error e => rw [hq] at hs; exact absurd hs (by simp)
    | ok params => rw [hq, sendFinish_sent] at hs; cases hs; rfl
  · rw [if_neg hm, sendFinish_sent] at hs
    cases hs
    rfl

/-- C5 counterexample: the claim says Content-Type is added only when a body
is present — but the convention-based client's Send sets
Content-Type: application/json on every request, so a GET (which carries no
body) still carries it. -/
theorem C5_counterexample_get_content_type :
    (((NewJsonServiceClient "http://test").Send "GET" (helloRequest "World")
          (some ({} : HelloResponse)) decodeHelloResponse
          { statusCode := 200, status := "200 OK", body := "\x7b\"result\":\"x\"\x7d" }).sent.map
        fun s => (s.body, headerGet s.headers "Content-Type"))
      = some (none, some "application/json") := by
  decide

/-- C5 (amended): every request from either client carries
Accept: application/json unless a configured custom header overrides it; the
generic client adds Content-Type: application/json exactly when a request
body is present; the convention-based client's Send sets
Content-Type: application/json on every request, GET and DELETE included. -/
theorem C5_header_composition :
    (∀ {σ : Type} (c : Client) (method path : String) (request : Option Json)
        (out : Option σ) (dec : Json → σ → Option σ) (resp : HttpResponse),
        (∀ kv ∈ c.headers, canonicalHeaderKey kv.1 ≠ "Accept") →
        (∀ kv ∈ c.headers, canonicalHeaderKey kv.1 ≠ "Content-Type") →
        headerGet (c.doRequest method path request out dec resp).sent.headers "Accept"
            = some "application/json"
        ∧ headerGet (c.doRequest method path request out dec resp).sent.headers "Content-Type"
            = request.map (fun _ => "application/json")
        ∧ (c.doRequest method path request out dec resp).sent.body = request.map Json.render)
    ∧ (∀ {σ : Type} (c : JsonServiceClient) (method : String) (request : GoValue)
        (init : Option σ) (dec : Json → σ → Option σ) (resp : HttpResponse)
        (s : OutgoingRequest),
        (∀ kv ∈ c.headers, canonicalHeaderKey kv.1 ≠ "Accept") →
        (∀ kv ∈ c.headers, canonicalHeaderKey kv.1 ≠ "Content-Type") →
        (c.Send method request init dec resp).sent = some s →
        headerGet s.headers "Accept" = some "application/json"
        ∧ headerGet s.headers "Content-Type" = some "application/json") := by
  constructor
  · intro σ c method path request out dec resp hA hC
    refine ⟨?_, ?_, ?_⟩
    · rw [doRequest_sent_headers, lookup_foldl_headerSet c.headers _ "Accept" hA]
      cases request <;> rfl
    · rw [doRequest_sent_headers, lookup_foldl_headerSet c.headers _ "Content-Type" hC]
      cases request <;> rfl
    · rw [doRequest_sent]
  · intro σ c method request init dec resp s hA hC hs
    rw [send_sent_headers c method request init dec resp s hs]
    unfold JsonServiceClient.sendHeaders
    rw [lookup_foldl_headerSet c.headers _ "Accept" hA,
      lookup_foldl_headerSet c.headers _ "Content-Type" hC]
    exact ⟨by decide, by decide⟩

/-- C5 witness: the header composition on a fresh client of each kind — a
bodyless generic GET without Content-Type, a generic POST with it, and a
convention-based GET with it. -/
theorem C5_header_composition_witness :
    (headerGet ((NewClient "http://t").doRequest "GET" "/hello" none
          (some ({} : HelloResponse)) decodeHelloResponse
          { statusCode := 200, status := "200 OK", body := "" }).sent.headers "Accept"
        = some "application/json"
      ∧ headerGet ((NewClient "http://t").doRequest "GET" "/hello" none
          (some ({} : HelloResponse)) decodeHelloResponse
          { statusCode := 200, status := "200 OK", body := "" }).sent.headers "Content-Type"
        = (none : Option Json).map (fun _ => "application/json")
      ∧ ((NewClient "http://t").doRequest "GET" "/hello" none
          (some ({} : HelloResponse)) decodeHelloResponse
          { statusCode := 200, status := "200 OK", body := "" }).sent.body
        = (none : Option Json).map Json.render)
    ∧ ∀ s, ((NewJsonServiceClient "http://t").Send "GET" (helloRequest "World")
          (some ({} : HelloResponse)) decodeHelloResponse
          { statusCode := 200, status := "200 OK", body := "\x7b\"result\":\"x\"\x7d" }).sent
        = some s →
        headerGet s.headers "Accept" = some "application/json"
        ∧ headerGet s.headers "Content-Type" = some "application/json" :=
  ⟨C5_header_composition.1 (NewClient "http://t") "GET" "/hello" none
      (some {}) decodeHelloResponse _ (by simp [NewClient]) (by simp [NewClient]),
   fun s hs => C5_header_composition.2 (NewJsonServiceClient "http://t") "GET"
      (helloRequest "World") (some {}) decodeHelloResponse _ s
      (by simp [NewJsonServiceClient]) (by simp [NewJsonServiceClient]) hs⟩

/-- C3: Send encodes by method — for GET and DELETE the request flattens to
query parameters (appended only when non-empty) and no body is sent; for
every other method (POST, PUT, PATCH included) the whole request is the JSON
body and the URL carries no query string.  Concretely, a request
`(name: World)` flattens to `name=World`, and a null-valued member is
omitted. -/
theorem C3_method_encoding {σ : Type} (c : JsonServiceClient) (request : GoValue)
    (init : Option σ) (dec : Json → σ → Option σ) (resp : HttpResponse) :
    (∀ method, (method = "GET" ∨ method = "DELETE") →
      (∃ e, toQueryString request.json = .error e
        ∧ (c.Send method request init dec resp).sent = none)
      ∨ (∃ q, toQueryString request.json = .ok q
        ∧ (c.Send method request init dec resp).sent = some
            { method := method,
              url := if q = "" then c.baseURL ++ getRequestPath request.typeName
                     else c.baseURL ++ getRequestPath request.typeName ++ "?" ++ q,
              headers := c.sendHeaders, body := none }))
    ∧ (∀ method, ¬(method = "GET" ∨ method = "DELETE") →
      (c.Send method request init dec resp).sent = some
        { method := method, url := c.baseURL ++ getRequestPath request.typeName,
          headers := c.sendHeaders, body := some (Json.render request.json) })
    ∧ toQueryString (.obj [("name", .str "World")]) = .ok "name=World"
    ∧ toQueryString (.obj [("name", .str "World"), ("opt", .null)]) = .ok "name=World" := by
  refine ⟨?_, ?_, by decide, by decide⟩
  · intro method hm
    unfold JsonServiceClient.Send
    rw [if_pos hm]
    cases hq : toQueryString request.json with
    | error e => exact .inl ⟨e, rfl, rfl⟩
    | ok params => exact .inr ⟨params, rfl, sendFinish_sent _ _ _ _ _⟩
  · intro method hm
    unfold JsonServiceClient.Send
    rw [if_neg hm]
    exact sendFinish_sent _ _ _ _ _

/-- C3 witness: the encoding at the repository's own test request, for a GET
and for a POST. -/
theorem C3_method_encoding_witness :
    ((∃ e, toQueryString (helloRequest "World").json = .error e
        ∧ ((NewJsonServiceClient "http://t").Send "GET" (helloRequest "World")
            (some ({} : HelloResponse)) decodeHelloResponse
            { statusCode := 200, status := "200 OK", body := "" }).sent = none)
      ∨ (∃ q, toQueryString (helloRequest "World").json = .ok q
        ∧ ((NewJsonServiceClient "http://t").Send "GET" (helloRequest "World")
            (some ({} : HelloResponse)) decodeHelloResponse
            { statusCode := 200, status := "200 OK", body := "" }).sent = some
              { method := "GET",
                url := if q = "" then "http://t" ++ getRequestPath "*servicestack.HelloRequest"
                       else "http://t" ++ getRequestPath "*servicestack.HelloRequest" ++ "?" ++ q,
                headers := (NewJsonServiceClient "http://t").sendHeaders, body := none }))
    ∧ ((NewJsonServiceClient "http://t").Send "POST" (helloRequest "World")
          (some ({} : HelloResponse)) decodeHelloResponse
          { statusCode := 200, status := "200 OK", body := "" }).sent = some
        { method := "POST", url := "http://t" ++ getRequestPath "*servicestack.HelloRequest",
          headers := (NewJsonServiceClient "http://t").sendHeaders,
          body := some (Json.render (helloRequest "World").json) } :=
  ⟨(C3_method_encoding (NewJsonServiceClient "http://t") (helloRequest "World")
      (some {}) decodeHelloResponse
      { statusCode := 200, status := "200 OK", body := "" }).1 "GET" (Or.inl rfl),
   (C3_method_encoding (NewJsonServiceClient "http://t") (helloRequest "World")
      (some {}) decodeHelloResponse
      { statusCode := 200, status := "200 OK", body := "" }).2.1 "POST" (by decide)⟩

/-! ### Iteration-order independence of the query encoding -/

theorem valuesAdd_of_not_mem_keys {acc : List (String × List String)} {k : String}
    (v : String) (h : k ∉ keysOf acc) : valuesAdd acc k v = acc ++ [(k, [v])] := by
  induction acc with
  | nil => rfl
  | cons kv rest ih =>
    obtain ⟨k₁, vs₁⟩ := kv
    simp only [keysOf, List.map_cons, List.mem_cons, not_or] at h
    simp only [valuesAdd, Ne.symm h.1, if_false, List.cons_append]
    rw [ih h.2]

theorem buildParams_go (d : List (String × Json)) (acc : List (String × List String))
    (h : (keysOf acc ++ (d.map Prod.fst)).Nodup) :
    d.foldl (fun acc kv => if kv.2.isNull then acc else valuesAdd acc kv.1 (goStringOf kv.2)) acc
      = acc ++ (d.filter fun kv => !kv.2.isNull).map fun kv => (kv.1, [goStringOf kv.2]) := by
  induction d generalizing acc with
  | nil => simp
  | cons kv rest ih =>
    obtain ⟨k, v⟩ := kv
    simp only [List.map_cons] at h
    by_cases hnull : v.isNull = true
    · have hrest : (keysOf acc ++ rest.map Prod.fst).Nodup :=
        ((List.sublist_cons_self k (rest.map Prod.fst)).append_left (keysOf acc)).nodup h
      simp only [List.foldl_cons, hnull, if_true, List.filter_cons]
      rw [ih acc hrest]
      simp [hnull]
    · have hk : k ∉ keysOf acc := by
        intro hmem
        have := (List.nodup_append.mp h).2.2
        exact this hmem (List.mem_cons_self k _)
      simp only [List.foldl_cons]
      rw [if_neg hnull, valuesAdd_of_not_mem_keys (goStringOf v) hk]
      have hperm : keysOf (acc ++ [(k, [goStringOf v])]) ++ rest.map Prod.fst
          = keysOf acc ++ k :: rest.map Prod.fst := by
        rw [keysOf_append]
        simp [keysOf, List.append_assoc]
      rw [ih (acc ++ [(k, [goStringOf v])]) (by rw [hperm]; exact h)]
      simp [hnull, List.filter_cons, List.append_assoc]

/-- The url.Values built by toQueryString from a map with distinct keys: the
non-nil entries in iteration order, each with its single rendered value. -/
theorem buildParams_eq (d : List (String × Json)) (h : (d.map Prod.fst).Nodup) :
    buildParams d = (d.filter fun kv => !kv.2.isNull).map fun kv => (kv.1, [goStringOf kv.2]) := by
  unfold buildParams
  exact buildParams_go d [] (by simpa [keysOf] using h)

theorem lookup_eq_of_perm {α : Type} {l₁ l₂ : List (String × α)} (h : l₁.Perm l₂) :
    (keysOf l₁).Nodup → ∀ k, l₁.lookup k = l₂.lookup k := by
  induction h with
  | nil => intro _ _; rfl
  | cons x h ih =>
    obtain ⟨xk, xv⟩ := x
    intro hn k
    simp only [keysOf, List.map_cons, List.nodup_cons] at hn
    simp only [List.lookup]
    cases hx : k == xk
    · exact ih hn.2 k
    · rfl
  | swap x y l =>
    obtain ⟨xk, xv⟩ := x
    obtain ⟨yk, yv⟩ := y
    intro hn k
    simp only [keysOf, List.map_cons, List.nodup_cons, List.mem_cons, not_or] at hn
    simp only [List.lookup]
    cases hky : k == yk <;> cases hkx : k == xk <;> try rfl
    exact absurd ((beq_iff_eq.mp hky).symm.trans (beq_iff_eq.mp hkx)) hn.1.1
  | trans h₁ h₂ ih₁ ih₂ =>
    intro hn k
    have hmid : (keysOf _).Nodup := (List.Perm.nodup_iff (h₁.map Prod.fst)).mp hn
    rw [ih₁ hn k, ih₂ hmid k]

theorem insertionSort_eq_of_perm {l₁ l₂ : List String} (h : l₁.Perm l₂) :
    List.insertionSort strLe l₁ = List.insertionSort strLe l₂ :=
  List.eq_of_perm_of_sorted
    ((List.perm_insertionSort strLe l₁).trans (h.trans (List.perm_insertionSort strLe l₂).symm))
    (List.sorted_insertionSort strLe l₁) (List.sorted_insertionSort strLe l₂)

theorem encodeValues_eq_of_perm {m₁ m₂ : List (String × List String)} (h : m₁.Perm m₂)
    (hn : (keysOf m₁).Nodup) : encodeValues m₁ = encodeValues m₂ := by
  have hkeys : List.insertionSort strLe (m₁.map Prod.fst)
      = List.insertionSort strLe (m₂.map Prod.fst) := insertionSort_eq_of_perm (h.map Prod.fst)
  have hf : (fun k => ((m₁.lookup k).getD []).map fun v => queryEscape k ++ "=" ++ queryEscape v)
      = fun k => ((m₂.lookup k).getD []).map fun v => queryEscape k ++ "=" ++ queryEscape v :=
    funext fun k => by rw [lookup_eq_of_perm h hn k]
  unfold encodeValues
  rw [hkeys, hf]

theorem dedupLastWins_nodup_go (fields : List (String × Json)) (acc : List (String × Json))
    (h : (keysOf acc).Nodup) :
    (keysOf (fields.foldl (fun acc kv => mapSet acc kv.1 kv.2) acc)).Nodup := by
  induction fields generalizing acc with
  | nil => exact h
  | cons kv rest ih => exact ih _ (keysOf_mapSet_nodup _ _ h)

/-- C10: the query encoding is deterministic and canonically ordered — the
encoded string is independent of the order in which the flattening loop
visits the map (any permutation of a duplicate-free member list encodes
identically), the emitted keys are sorted ascending in byte-wise order, the
map handed to the loop always has distinct keys, and both keys and values are
percent-escaped. -/
theorem C10_query_string_deterministic :
    (∀ d₁ d₂ : List (String × Json), d₁.Perm d₂ → (d₁.map Prod.fst).Nodup →
      encodeValues (buildParams d₁) = encodeValues (buildParams d₂))
    ∧ (∀ m : List (String × List String),
        List.Sorted strLe (List.insertionSort strLe (m.map Prod.fst)))
    ∧ (∀ fields : List (String × Json), (keysOf (dedupLastWins fields)).Nodup)
    ∧ queryEscape "a b&c" = "a+b%26c" := by
  refine ⟨?_, fun m => List.sorted_insertionSort strLe (m.map Prod.fst),
    fun fields => dedupLastWins_nodup_go fields [] List.nodup_nil, by decide⟩
  intro d₁ d₂ hperm hn₁
  have hn₂ : (d₂.map Prod.fst).Nodup := (List.Perm.nodup_iff (hperm.map Prod.fst)).mp hn₁
  rw [buildParams_eq d₁ hn₁, buildParams_eq d₂ hn₂]
  have hp : ((d₁.filter fun kv => !kv.2.isNull).map fun kv => (kv.1, [goStringOf kv.2])).Perm
      ((d₂.filter fun kv => !kv.2.isNull).map fun kv => (kv.1, [goStringOf kv.2])) :=
    (hperm.filter _).map _
  refine encodeValues_eq_of_perm hp ?_
  have : keysOf ((d₁.filter fun kv => !kv.2.isNull).map fun kv => (kv.1, [goStringOf kv.2]))
      = (d₁.filter fun kv => !kv.2.isNull).map Prod.fst := by
    simp [keysOf]
  rw [this]
  exact ((List.filter_sublist d₁).map Prod.fst).nodup hn₁

/-- C10 witness: two iteration orders of the same two-entry map encode to the
same string. -/
theorem C10_query_string_deterministic_witness :
    encodeValues (buildParams [("b", Json.str "2"), ("a", Json.str "1")])
      = encodeValues (buildParams [("a", Json.str "1"), ("b", Json.str "2")])
    ∧ encodeValues (buildParams [("b", Json.str "2"), ("a", Json.str "1")]) = "a=1&b=2" :=
  ⟨C10_query_string_deterministic.1 [("b", Json.str "2"), ("a", Json.str "1")]
      [("a", Json.str "1"), ("b", Json.str "2")]
      (List.Perm.swap ("a", Json.str "1") ("b", Json.str "2") []) (by decide),
   by decide⟩

end ServiceStackGo
